import Mathlib

/-
Verification development for yolk.go, a bulk rewriter of Go import
declarations.  The Go source is shallowly embedded below: the pure
matching / substitution logic is translated function by function, and
the filesystem-touching parts (os.Open, ioutil.WriteFile, os.Rename,
os.Remove, ioutil.TempFile, Chmod) are modelled over an explicit
filesystem value, with an `Env` record injecting the outcome of each
fallible OS call.  The external libraries go/parser, go/printer,
format.Source and golang.org/x/tools/go/ast/astutil are modelled from
their documented behaviour: source bytes are represented by the AST
they parse to together with a flag recording whether the bytes are
exactly the canonical rendering of that AST.
-/

set_option autoImplicit false

namespace Yolk

/-- An import declaration: the logical (unquoted) import path and the
optional alias; following the source's `importName`, the empty string
stands for "no alias" (`ast.ImportSpec.Name == nil`). -/
structure ImportSpec where
  name : String
  path : String
deriving DecidableEq

/-- Model of a parsed Go file (`*ast.File`): the flattened list of
its import declarations in source order (what iterating the groups of
`astutil.Imports` yields), plus the rest of the file kept verbatim. -/
structure GoFile where
  imports : List ImportSpec
  rest : String
deriving DecidableEq

/-- Model of the byte content of a file on disk.  Go source bytes are
represented by the AST they parse to (`goSource ast canonical`), where
`canonical` records whether the bytes are exactly the canonical
rendering (go/printer followed by format.Source) of that AST.
`malformed` is unparsable content; `incomplete` is the content of a
freshly created or only partially written temp file. -/
inductive FileData where
  | goSource (ast : GoFile) (canonical : Bool)
  | malformed
  | incomplete
deriving DecidableEq

/-- Model of go/parser: parsing succeeds exactly on Go source bytes and
returns their AST, independent of formatting. -/
def parseGo : FileData → Option GoFile
  | FileData.goSource f _ => some f
  | FileData.malformed => none
  | FileData.incomplete => none

/-- Model of the printing pipeline of rewriteImport (printer.Config.Fprint
followed by format.Source): a deterministic canonical rendering of the AST. -/
def render (f : GoFile) : FileData := FileData.goSource f true

/-- One file of the modelled filesystem. -/
structure FsEntry where
  path : String
  isDir : Bool
  content : FileData
  perm : Nat
deriving DecidableEq

/-- The modelled filesystem: a list of entries, looked up by path. -/
abbrev Fs := List FsEntry

/-- Look a path up in the filesystem. -/
def fsGet (fs : Fs) (p : String) : Option FsEntry := fs.find? (fun e => e.path == p)

/-- Replace the content of the entry at path `p` (other entries and the
permission bits are untouched). -/
def updContent (p : String) (d : FileData) (e : FsEntry) : FsEntry :=
  if e.path == p then { e with content := d } else e

/-- Replace the permission bits of the entry at path `p`. -/
def updPerm (p : String) (pm : Nat) (e : FsEntry) : FsEntry :=
  if e.path == p then { e with perm := pm } else e

/-- Model of ioutil.WriteFile: truncate-and-write an existing file
(keeping its permission bits, as the OS does) or create a fresh one
with the given permission bits. -/
def fsWrite (fs : Fs) (p : String) (d : FileData) (pm : Nat) : Fs :=
  if (fsGet fs p).isSome then fs.map (updContent p d)
  else fs ++ [{ path := p, isDir := false, content := d, perm := pm }]

/-- Model of os.Remove. -/
def fsRemove (fs : Fs) (p : String) : Fs := fs.filter (fun e => !(e.path == p))

/-- Model of os.Rename: the entry at `src` replaces whatever was at `dst`,
keeping its content and permission bits. -/
def fsRename (fs : Fs) (src dst : String) : Fs :=
  match fsGet fs src with
  | none => fs
  | some e => (fs.filter (fun x => !(x.path == src) && !(x.path == dst))) ++ [{ e with path := dst }]

/-- The generated-code suffix denylist of the source (`codeSuffixSkipped`). -/
def codeSuffixSkipped : List String := ["pb.go", "pb.gopherjs.go", "stateGen.go", "reactGen.go"]

/-- chmodSupported = runtime.GOOS != "windows"; the modelled host is not
Windows. -/
def chmodSupported : Bool := true

/-- The value of the global `replaceRules` map after package
initialization: the empty map.  The source's `main` never calls
`initReplaceRules`, so the map keeps this value for the whole run.
Go map iteration order is unspecified; the model fixes a list order. -/
def replaceRulesInit : List (String × String) := []

/-- Embedding of `initReplaceRules`: the map { *source: *dest } that the
function would install.  The function is defined in the source but never
invoked by `main`. -/
def initReplaceRules (src dst : String) : List (String × String) := [(src, dst)]

/-- A pending substitution (the source's `replacer` struct). -/
structure Replacer where
  name : String
  oldPath : String
  newPath : String
deriving DecidableEq

/-- Model of strings.HasPrefix, over the characters of the strings
(structurally recursive, so proofs can evaluate it). -/
def goHasPrefix (s pre : String) : Bool := pre.toList.isPrefixOf s.toList

/-- The remainder strings.TrimPrefix keeps after a successful
HasPrefix test: drop the prefix's characters. -/
def goDrop (s : String) (n : Nat) : String := (s.toList.drop n).asString

/-- Model of strings.HasSuffix, over the characters of the strings. -/
def goHasSuffix (s suf : String) : Bool := suf.toList.isSuffixOf s.toList

/-- The inner loop of rewriteImport over `replaceRules`: for each
(pre, will) rule whose prefix the import path starts with, record a
replacer with newPath = will + TrimPrefix(impPath, pre). -/
def rulesFor (rules : List (String × String)) (impName impPath : String) : List Replacer :=
  match rules with
  | [] => []
  | (pre, will) :: rest =>
    (if goHasPrefix impPath pre then
      [{ name := impName, oldPath := impPath, newPath := will ++ goDrop impPath pre.length }]
     else []) ++ rulesFor rest impName impPath

/-- The replacer-collection loop of rewriteImport: iterate the import
declarations in source order, and for each one iterate the rules. -/
def computeReplacers (rules : List (String × String)) : List ImportSpec → List Replacer
  | [] => []
  | imp :: rest => rulesFor rules imp.name imp.path ++ computeReplacers rules rest

/-- Model of astutil.DeleteNamedImport: delete every import declaration
with the given name and path; the Bool reports whether any was found. -/
def deleteNamedImport (f : GoFile) (nm ip : String) : GoFile × Bool :=
  ({ f with imports := f.imports.filter (fun i => !(i.name == nm && i.path == ip)) },
   f.imports.any (fun i => i.name == nm && i.path == ip))

/-- Model of astutil.AddNamedImport: add an import declaration with the
given name and path unless one is already present; the Bool reports
whether it was added. -/
def addNamedImport (f : GoFile) (nm ip : String) : GoFile × Bool :=
  if f.imports.any (fun i => i.name == nm && i.path == ip) then (f, false)
  else ({ f with imports := f.imports ++ [{ name := nm, path := ip }] }, true)

/-- The delete-then-insert loop of rewriteImport: abort with the source's
error message when a deletion reports "not found" or an insertion
reports a conflict. -/
def applyReplacers (f : GoFile) : List Replacer → Except String GoFile
  | [] => Except.ok f
  | r :: rs =>
    let del := deleteNamedImport f r.name r.oldPath
    if !del.2 then Except.error "delete old path fails"
    else
      let add := addNamedImport del.1 r.name r.newPath
      if !add.2 then Except.error "add new path fails"
      else applyReplacers add.1 rs

/-- The diagnostic line the deferred logger of rewriteImport emits:
log.Printf("rewrite import fails with %s due to %s", path, errx). -/
def logLine (path err : String) : String :=
  "rewrite import fails with " ++ path ++ " due to " ++ err

/-- Fault-injection environment for the OS calls of rewriteImport and
backupFile.  `tempName` is the fresh name ioutil.TempFile picks for the
argument filename. -/
structure Env where
  openFails : Bool
  statFails : Bool
  readFails : Bool
  formatFails : Bool
  tempFails : Bool
  chmodFails : Bool
  backupWriteFails : Bool
  backupCloseFails : Bool
  writeFileFails : Bool
  removeFails : Bool
  tempName : String → String

/-- The environment in which every OS call succeeds. -/
def happyWith (tn : String → String) : Env :=
  { openFails := false, statFails := false, readFails := false, formatFails := false,
    tempFails := false, chmodFails := false, backupWriteFails := false,
    backupCloseFails := false, writeFileFails := false, removeFails := false,
    tempName := tn }

/-- The environment in which only the overwrite of the target fails. -/
def failWriteEnv (tn : String → String) : Env :=
  { openFails := false, statFails := false, readFails := false, formatFails := false,
    tempFails := false, chmodFails := false, backupWriteFails := false,
    backupCloseFails := false, writeFileFails := true, removeFails := false,
    tempName := tn }

/-- The environment in which only writing the backup file fails. -/
def failBackupWriteEnv (tn : String → String) : Env :=
  { openFails := false, statFails := false, readFails := false, formatFails := false,
    tempFails := false, chmodFails := false, backupWriteFails := true,
    backupCloseFails := false, writeFileFails := false, removeFails := false,
    tempName := tn }

/-- The environment in which only closing the backup file fails. -/
def failBackupCloseEnv (tn : String → String) : Env :=
  { openFails := false, statFails := false, readFails := false, formatFails := false,
    tempFails := false, chmodFails := false, backupWriteFails := false,
    backupCloseFails := true, writeFileFails := false, removeFails := false,
    tempName := tn }

/-- The environment in which only the chmod of the backup file fails. -/
def failChmodEnv (tn : String → String) : Env :=
  { openFails := false, statFails := false, readFails := false, formatFails := false,
    tempFails := false, chmodFails := true, backupWriteFails := false,
    backupCloseFails := false, writeFileFails := false, removeFails := false,
    tempName := tn }

/-- Embedding of `backupFile`: create a temp file next to the target,
chmod it to the original permission bits (removing it when the chmod
fails), write the original bytes into it and close it.  Returns the new
filesystem, the backup name and the error, mirroring the source's
`(string, error)` return.  On a write or close failure the temp file is
left behind. -/
def backupFile (env : Env) (fs : Fs) (filename : String) (data : FileData) (perm : Nat) :
    Fs × String × Option String :=
  if env.tempFails then (fs, "", some "create backup fails")
  else
    let backname := env.tempName filename
    let fs1 : Fs := fs ++ [{ path := backname, isDir := false,
                             content := FileData.incomplete, perm := 384 }]
    if chmodSupported && env.chmodFails then
      (fsRemove fs1 backname, backname, some "chmod backup fails")
    else
      let fs2 := if chmodSupported then fs1.map (updPerm backname perm) else fs1
      if env.backupWriteFails then (fs2, backname, some "write backup fails")
      else
        let fs3 := fs2.map (updContent backname data)
        if env.backupCloseFails then (fs3, backname, some "close backup fails")
        else (fs3, backname, none)

/-- Embedding of the body of `rewriteImport`: open, stat and read the
file, parse it, collect the pending substitutions, apply them, render
the result, back the original up, overwrite the target (renaming the
backup back on failure) and remove the backup.  Returns the new
filesystem and the value the source assigns to `errx`; every branch of
the Go function returns `nil` to the walk, which the wrapper below
records. -/
def rewriteImportErr (env : Env) (rules : List (String × String)) (fs : Fs) (path : String) :
    Fs × Option String :=
  match fsGet fs path with
  | none => (fs, some "open file fails")
  | some entry =>
    if env.openFails then (fs, some "open file fails")
    else if env.statFails then (fs, some "stat file fails")
    else if env.readFails then (fs, some "read file fails")
    else
      let perm := entry.perm
      let src := entry.content
      match parseGo src with
      | none => (fs, some "parse file fails")
      | some file =>
        match applyReplacers file (computeReplacers rules file.imports) with
        | Except.error e => (fs, some e)
        | Except.ok file2 =>
          if env.formatFails then (fs, some "format source fails")
          else
            let bs := render file2
            match backupFile env fs (path ++ ".") src perm with
            | (fs1, _, some e) => (fs1, some e)
            | (fs1, backname, none) =>
              if env.writeFileFails then
                (fsRename fs1 backname path, some "write file fails")
              else
                let fs2 := fsWrite fs1 path bs perm
                if env.removeFails then (fs2, some "remove backup fails")
                else (fsRemove fs2 backname, none)

/-- The diagnostic lines the deferred logger emits for a per-file run. -/
def rewriteLogs (path : String) : Option String → List String
  | some e => [logLine path e]
  | none => []

/-- Result of one per-file run as the walk observes it. -/
structure RwOut where
  fs : Fs
  logs : List String
  ret : Option String
deriving DecidableEq

/-- Embedding of `rewriteImport` as the walk sees it: the filesystem
effect, the deferred diagnostic, and the returned error — which is
`nil` on every path of the Go function. -/
def rewriteImport (env : Env) (rules : List (String × String)) (fs : Fs) (path : String) :
    RwOut :=
  let r := rewriteImportErr env rules fs path
  { fs := r.1, logs := rewriteLogs path r.2, ret := none }

/-- The os.FileInfo data `handle` consults. -/
structure WalkInfo where
  name : String
  isDir : Bool
deriving DecidableEq

/-- Boolean substring containment, modelling strings.Contains. -/
def listHasInfix (hay nd : List Char) : Bool :=
  nd.isPrefixOf hay ||
    (match hay with
     | [] => false
     | _ :: t => listHasInfix t nd)

/-- strings.Contains on strings. -/
def containsStr (s sub : String) : Bool := listHasInfix s.toList sub.toList

/-- Embedding of the `handle` walk callback: propagate a traversal
error, skip directories, any path containing "vendor", non-.go files
and denylisted suffixes; otherwise run rewriteImport. -/
def handle (env : Env) (rules : List (String × String)) (fs : Fs)
    (path : String) (info : WalkInfo) (errx : Option String) :
    Fs × List String × Option String :=
  match errx with
  | some e => (fs, [], some e)
  | none =>
    if info.isDir then (fs, [], none)
    else if containsStr path "vendor" then (fs, [], none)
    else if !(goHasSuffix info.name ".go") then (fs, [], none)
    else if codeSuffixSkipped.any (fun s => goHasSuffix info.name s) then (fs, [], none)
    else
      let r := rewriteImport env rules fs path
      (r.fs, r.logs, r.ret)

/-- The selection guard of `handle`, written as a predicate: rewriteImport
is invoked exactly on the paths this accepts. -/
def isCandidate (path : String) (info : WalkInfo) : Bool :=
  !info.isDir && !containsStr path "vendor" && goHasSuffix info.name ".go" &&
    !(codeSuffixSkipped.any (fun s => goHasSuffix info.name s))

/-- One callback invocation of filepath.Walk: the path, the file info and
the traversal error passed to `handle`. -/
structure WalkEntry where
  path : String
  info : WalkInfo
  errx : Option String
deriving DecidableEq

/-- Result of a whole walk. -/
structure WalkOut where
  fs : Fs
  logs : List String
  err : Option String
deriving DecidableEq

/-- Model of filepath.Walk over the sequence of callback invocations:
stop at the first invocation whose callback returns an error. -/
def walk (env : Env) (rules : List (String × String)) : Fs → List WalkEntry → WalkOut
  | fs, [] => { fs := fs, logs := [], err := none }
  | fs, e :: es =>
    match handle env rules fs e.path e.info e.errx with
    | (fs1, lg1, some err) => { fs := fs1, logs := lg1, err := some err }
    | (fs1, lg1, none) =>
      let w := walk env rules fs1 es
      { fs := w.fs, logs := lg1 ++ w.logs, err := w.err }

/-- Observable outcome of a whole run of main. -/
structure MainOut where
  exitCode : Nat
  fs : Fs
  logs : List String
deriving DecidableEq

/-- Embedding of `main`: validate the flags (os.Exit(255) via exitOnErr on
a missing one), then walk the tree.  The source never calls
initReplaceRules, so the walk runs with the rules map still holding its
initial value `replaceRulesInit`. -/
def main0 (env : Env) (d s r : String) (fs : Fs) (entries : List WalkEntry) : MainOut :=
  if d = "" then
    { exitCode := 255, fs := fs, logs := ["you must specify a directory to handle"] }
  else if s = "" ∨ r = "" then
    { exitCode := 255, fs := fs,
      logs := ["you must specify a source or destination import path to handle"] }
  else
    let w := walk env replaceRulesInit fs entries
    match w.err with
    | some e => { exitCode := 255, fs := w.fs, logs := w.logs ++ [e] }
    | none => { exitCode := 0, fs := w.fs, logs := w.logs }

/-- Split a character list at '/' characters; used only to state the
claim's path-segment reading of the vendor exclusion. -/
def splitSlash : List Char → List (List Char)
  | [] => [[]]
  | c :: t =>
    match splitSlash t with
    | [] => [[]]
    | seg :: rest => if c = '/' then [] :: seg :: rest else (c :: seg) :: rest

/-- The vendor exclusion exactly as the claim words it: some path
segment is the directory name "vendor". -/
def hasVendorSegment (path : String) : Bool :=
  (splitSlash path.toList).any (fun seg => seg == "vendor".toList)

/-- Candidate selection as stated by the claim (path-segment aware
vendor exclusion). -/
def claimCandidate (path : String) (info : WalkInfo) : Bool :=
  !info.isDir && !hasVendorSegment path && goHasSuffix info.name ".go" &&
    !(codeSuffixSkipped.any (fun s => goHasSuffix info.name s))

/-- Candidate selection as the claim must be amended: the vendor
exclusion is a plain substring test on the whole path, not a
path-segment test. -/
def claimCandidateAmended (path : String) (info : WalkInfo) : Bool :=
  !info.isDir && !containsStr path "vendor" && goHasSuffix info.name ".go" &&
    !(codeSuffixSkipped.any (fun s => goHasSuffix info.name s))

/-- Concrete scenario objects used by the closed theorems below. -/
def fileA : GoFile := { imports := [{ name := "x", path := "github.com/foo/bar/sub" }], rest := "p" }

/-- The file of the C1 scenario after the substitution the claim expects. -/
def fileA2 : GoFile := { imports := [{ name := "x", path := "example.com/baz/sub" }], rest := "p" }

/-- A one-file tree holding the C1 scenario file. -/
def fsA : Fs := [{ path := "a.go", isDir := false, content := FileData.goSource fileA true, perm := 420 }]

/-- The walk invocation sequence for fsA. -/
def entriesA : List WalkEntry :=
  [{ path := "a.go", info := { name := "a.go", isDir := false }, errx := none }]

/-- All-success environment for the C1 scenario. -/
def envA : Env := happyWith (fun _ => "a.go.bak")

/-- A file with one import that matches no rule below, stored in
non-canonical formatting. -/
def fileC3 : GoFile := { imports := [{ name := "", path := "other/pkg" }], rest := "body" }

/-- A one-file tree holding fileC3 with non-canonical bytes. -/
def fsC3 : Fs :=
  [{ path := "c.go", isDir := false, content := FileData.goSource fileC3 false, perm := 420 }]

/-- All-success environment for the C3 counterexample. -/
def envC3 : Env := happyWith (fun _ => "c.bak")

/-- A rule matching nothing in fileC3. -/
def rulesC3 : List (String × String) := [("github.com/foo", "q")]

/-- A file with a matching import, placed under a directory whose name
merely contains "vendor" as a substring. -/
def fileC4 : GoFile := { imports := [{ name := "", path := "github.com/foo/x" }], rest := "" }

/-- A one-file tree holding fileC4 at path "vendors/a.go". -/
def fsC4 : Fs :=
  [{ path := "vendors/a.go", isDir := false, content := FileData.goSource fileC4 true, perm := 420 }]

/-- All-success environment for the C4 counterexample. -/
def envC4 : Env := happyWith (fun _ => "v.bak")

/-- A file importing "a/x", rewritten by rule (a, ab) to "ab/x", which
matches the rule again. -/
def fileC7 : GoFile := { imports := [{ name := "", path := "a/x" }], rest := "" }

/-- A one-file tree holding fileC7. -/
def fsC7 : Fs :=
  [{ path := "y.go", isDir := false, content := FileData.goSource fileC7 true, perm := 420 }]

/-- The walk invocation sequence for fsC7. -/
def entriesC7 : List WalkEntry :=
  [{ path := "y.go", info := { name := "y.go", isDir := false }, errx := none }]

/-- All-success environment for the C7 counterexample. -/
def envC7 : Env := happyWith (fun _ => "y.bak")

/-- Witness file for the amended C3: already canonical, no matching import. -/
def fileW3 : GoFile := { imports := [{ name := "", path := "other" }], rest := "w" }

/-- One-file tree for the C3 witness. -/
def fsW3 : Fs :=
  [{ path := "w.go", isDir := false, content := FileData.goSource fileW3 true, perm := 420 }]

/-- Witness file for C5/C9: one import matching rule (a, b). -/
def fileW5 : GoFile := { imports := [{ name := "", path := "a/q" }], rest := "w" }

/-- The C5/C9 witness file after the substitution. -/
def fileW5b : GoFile := { imports := [{ name := "", path := "b/q" }], rest := "w" }

/-- One-file tree for the C5 witness. -/
def fsW5 : Fs :=
  [{ path := "w5.go", isDir := false, content := FileData.goSource fileW5 true, perm := 420 }]

/-- Witness file for C6: two imports named x, importing "a" and "b"; the
rule (a, b) then makes the insertion conflict. -/
def fileW6 : GoFile :=
  { imports := [{ name := "x", path := "a" }, { name := "x", path := "b" }], rest := "" }

/-- One-file tree for the C6 witness. -/
def fsW6 : Fs :=
  [{ path := "w6.go", isDir := false, content := FileData.goSource fileW6 true, perm := 420 }]

/-- Witness file for the amended C7: its single import is rewritten to a
path that no longer starts with the old prefix. -/
def fileW7 : GoFile := { imports := [{ name := "x", path := "github.com/foo/sub" }], rest := "" }

/-- The C7 witness file after the substitution. -/
def fileW7b : GoFile := { imports := [{ name := "x", path := "example.com/baz/sub" }], rest := "" }

/-- One-file tree for the C7 witness. -/
def fsW7 : Fs :=
  [{ path := "w7.go", isDir := false, content := FileData.goSource fileW7 true, perm := 420 }]

/-- One-file tree for the C9 witness, with distinctive permission bits. -/
def fsW9 : Fs :=
  [{ path := "w9.go", isDir := false, content := FileData.goSource fileW5 true, perm := 416 }]

/-- One-file tree for the C10 witness. -/
def fsW10 : Fs :=
  [{ path := "wa.go", isDir := false, content := FileData.goSource fileW5 true, perm := 420 }]

/-- Finding in a concatenation succeeds on the left part when the left
part already contains a hit. -/
theorem find?_append_some {p : FsEntry → Bool} {l1 l2 : List FsEntry} {e : FsEntry}
    (h : l1.find? p = some e) : (l1 ++ l2).find? p = some e := by
  induction l1 with
  | nil => simp [List.find?] at h
  | cons a t ih =>
    simp only [List.cons_append, List.find?] at h ⊢
    cases hpa : p a with
    | true => simpa [hpa] using h
    | false =>
      rw [hpa] at h
      simpa [hpa] using ih h

/-- Finding in a concatenation falls through to the right part when the
left part has no hit. -/
theorem find?_append_none {p : FsEntry → Bool} {l1 l2 : List FsEntry}
    (h : l1.find? p = none) : (l1 ++ l2).find? p = l2.find? p := by
  induction l1 with
  | nil => simp
  | cons a t ih =>
    simp only [List.find?] at h
    cases hpa : p a with
    | true => rw [hpa] at h; exact absurd h (by simp)
    | false =>
      rw [hpa] at h
      simpa [List.find?, hpa] using ih h

/-- Unpack fsGet = none into the pointwise statement. -/
theorem fsGet_none_forall {fs : Fs} {p : String} (h : fsGet fs p = none) :
    ∀ e ∈ fs, (e.path == p) = false := by
  intro e he
  have := List.find?_eq_none.mp h e he
  simpa using this

/-- updContent does not move an entry. -/
theorem updContent_path (p : String) (d : FileData) (e : FsEntry) :
    (updContent p d e).path = e.path := by
  unfold updContent
  split <;> rfl

/-- updPerm does not move an entry. -/
theorem updPerm_path (p : String) (pm : Nat) (e : FsEntry) :
    (updPerm p pm e).path = e.path := by
  unfold updPerm
  split <;> rfl

/-- Lookup commutes with a path-preserving map. -/
theorem fsGet_map_pathPres (g : FsEntry → FsEntry) (hg : ∀ e, (g e).path = e.path)
    (l : Fs) (q : String) : fsGet (l.map g) q = (fsGet l q).map g := by
  induction l with
  | nil => rfl
  | cons a t ih =>
    simp only [List.map_cons, fsGet, List.find?, hg a]
    cases hqa : a.path == q with
    | true => simp
    | false => simpa [fsGet] using ih

/-- Updating the content at a path absent from the list is a no-op. -/
theorem map_updContent_fresh {l : Fs} {b : String}
    (h : ∀ e ∈ l, (e.path == b) = false) (d : FileData) :
    l.map (updContent b d) = l := by
  induction l with
  | nil => rfl
  | cons a t ih =>
    have ha := h a (List.mem_cons_self a t)
    simp only [List.map_cons, updContent, ha, Bool.false_eq_true, if_false]
    rw [ih (fun e he => h e (List.mem_cons_of_mem a he))]

/-- Updating the permissions at a path absent from the list is a no-op. -/
theorem map_updPerm_fresh {l : Fs} {b : String}
    (h : ∀ e ∈ l, (e.path == b) = false) (pm : Nat) :
    l.map (updPerm b pm) = l := by
  induction l with
  | nil => rfl
  | cons a t ih =>
    have ha := h a (List.mem_cons_self a t)
    simp only [List.map_cons, updPerm, ha, Bool.false_eq_true, if_false]
    rw [ih (fun e he => h e (List.mem_cons_of_mem a he))]

/-- Removing a path absent from the list is a no-op. -/
theorem fsRemove_fresh {l : Fs} {b : String}
    (h : ∀ e ∈ l, (e.path == b) = false) : fsRemove l b = l := by
  unfold fsRemove
  induction l with
  | nil => rfl
  | cons a t ih =>
    have ha := h a (List.mem_cons_self a t)
    simp only [List.filter, ha, Bool.not_false]
    rw [ih (fun e he => h e (List.mem_cons_of_mem a he))]

/-- In the all-successes environment, backupFile appends one fresh backup
entry holding the original bytes and permission bits and reports no error. -/
theorem backupFile_happy (tn : String → String) (fs : Fs) (filename : String)
    (data : FileData) (perm : Nat) (hfresh : fsGet fs (tn filename) = none) :
    backupFile (happyWith tn) fs filename data perm =
      (fs ++ [⟨tn filename, false, data, perm⟩], tn filename, none) := by
  have hb := fsGet_none_forall hfresh
  have h1 : (fs ++ [(⟨tn filename, false, FileData.incomplete, 384⟩ : FsEntry)]).map
        (updPerm (tn filename) perm)
      = fs ++ [⟨tn filename, false, FileData.incomplete, perm⟩] := by
    rw [List.map_append, map_updPerm_fresh hb]
    simp [updPerm]
  have h2 : (fs ++ [(⟨tn filename, false, FileData.incomplete, perm⟩ : FsEntry)]).map
        (updContent (tn filename) data)
      = fs ++ [⟨tn filename, false, data, perm⟩] := by
    rw [List.map_append, map_updContent_fresh hb]
    simp [updContent]
  simp [backupFile, happyWith, chmodSupported, h1, h2]


/-- In the all-successes environment, and with the backup name fresh, the
body of rewriteImport replaces the target's content by the canonical
rendering of the rewritten AST and reports no error. -/
theorem rewriteImportErr_happy (tn : String → String) (rules : List (String × String))
    (fs : Fs) (path : String) (entry : FsEntry) (f f2 : GoFile)
    (hget : fsGet fs path = some entry)
    (hp : parseGo entry.content = some f)
    (ha : applyReplacers f (computeReplacers rules f.imports) = Except.ok f2)
    (hfresh : fsGet fs (tn (path ++ ".")) = none) :
    rewriteImportErr (happyWith tn) rules fs path =
      (fs.map (updContent path (render f2)), none) := by
  have hb := fsGet_none_forall hfresh
  have hbp : tn (path ++ ".") ≠ path := by
    intro hEq
    rw [hEq, hget] at hfresh
    exact Option.noConfusion hfresh
  have hbpB : ((tn (path ++ ".") : String) == path) = false := by
    simpa using hbp
  have hget3 : fsGet (fs ++ [(⟨tn (path ++ "."), false, entry.content, entry.perm⟩ : FsEntry)])
      path = some entry := find?_append_some hget
  have hwrite : fsWrite (fs ++ [(⟨tn (path ++ "."), false, entry.content, entry.perm⟩ : FsEntry)])
      path (render f2) entry.perm
      = fs.map (updContent path (render f2)) ++
          [⟨tn (path ++ "."), false, entry.content, entry.perm⟩] := by
    simp only [fsWrite, hget3, Option.isSome_some, if_true, List.map_append, List.map_cons,
      List.map_nil]
    simp [updContent, hbpB]
  have hkeep : ∀ e ∈ fs.map (updContent path (render f2)),
      (e.path == tn (path ++ ".")) = false := by
    intro e he
    rcases List.mem_map.mp he with ⟨a, ha', rfl⟩
    rw [updContent_path]
    exact hb a ha'
  have hremove : fsRemove (fs.map (updContent path (render f2)) ++
        [⟨tn (path ++ "."), false, entry.content, entry.perm⟩]) (tn (path ++ "."))
      = fs.map (updContent path (render f2)) := by
    unfold fsRemove
    rw [List.filter_append, List.filter_eq_self.mpr (by
      intro e he
      simp [hkeep e he])]
    simp
  have hback := backupFile_happy tn fs (path ++ ".") entry.content entry.perm hfresh
  simp only [rewriteImportErr, hget]
  simp only [happyWith] at hback ⊢
  simp only [Bool.false_eq_true, if_false]
  rw [hp]
  simp only [ha]
  rw [hback]
  simp only [Bool.false_eq_true, if_false, hwrite, hremove]

/-- With the empty rule map, no import declaration produces a pending
substitution. -/
theorem computeReplacers_nil_rules (imps : List ImportSpec) :
    computeReplacers [] imps = [] := by
  induction imps with
  | nil => rfl
  | cons i t ih => simp [computeReplacers, rulesFor, ih]

/-- Membership in the substitutions of a single rule: a replacer comes
from an import whose path starts with the old prefix, and rewrites it to
the new prefix followed by the remainder. -/
theorem computeReplacers_single_mem {o n : String} {imps : List ImportSpec} {r : Replacer}
    (h : r ∈ computeReplacers [(o, n)] imps) :
    ∃ i ∈ imps, goHasPrefix i.path o = true ∧
      r = ⟨i.name, i.path, n ++ goDrop i.path o.length⟩ := by
  induction imps with
  | nil => simp [computeReplacers] at h
  | cons i t ih =>
    simp only [computeReplacers, List.mem_append] at h
    rcases h with h | h
    · refine ⟨i, List.mem_cons_self i t, ?_⟩
      unfold rulesFor at h
      by_cases hs : goHasPrefix i.path o
      · simp only [hs, if_true, rulesFor, List.append_nil] at h
        rcases List.mem_singleton.mp h with rfl
        exact ⟨hs, rfl⟩
      · simp [hs, rulesFor] at h
    · rcases ih h with ⟨j, hj, hsj, rfl⟩
      exact ⟨j, List.mem_cons_of_mem i hj, hsj, rfl⟩

/-- Every matching import produces its substitution under a single rule. -/
theorem computeReplacers_single_mem_of {o n : String} {imps : List ImportSpec}
    {i : ImportSpec} (hi : i ∈ imps) (hs : goHasPrefix i.path o = true) :
    (⟨i.name, i.path, n ++ goDrop i.path o.length⟩ : Replacer) ∈
      computeReplacers [(o, n)] imps := by
  induction imps with
  | nil => exact absurd hi (List.not_mem_nil i)
  | cons j t ih =>
    simp only [computeReplacers, List.mem_append]
    rcases List.mem_cons.mp hi with rfl | hmem
    · exact Or.inl (by simp [rulesFor, hs])
    · exact Or.inr (ih hmem)

/-- A single rule matching no import of the file yields no substitutions. -/
theorem computeReplacers_single_nil {o n : String} {imps : List ImportSpec}
    (h : ∀ i ∈ imps, goHasPrefix i.path o = false) :
    computeReplacers [(o, n)] imps = [] := by
  induction imps with
  | nil => rfl
  | cons i t ih =>
    have hi := h i (List.mem_cons_self i t)
    simp only [computeReplacers, rulesFor, hi, Bool.false_eq_true, if_false,
      List.nil_append, List.append_nil]
    exact ih (fun j hj => h j (List.mem_cons_of_mem i hj))

/-- Structure of the import list after a successful delete-then-insert
loop: every surviving import either comes from the original file and
matches no replacer's (name, old path), or is one of the inserted
(name, new path) declarations. -/
theorem applyReplacers_imports {g g' : GoFile} {rs : List Replacer}
    (h : applyReplacers g rs = Except.ok g') :
    ∀ i ∈ g'.imports,
      (i ∈ g.imports ∧ ∀ r ∈ rs, ¬(i.name = r.name ∧ i.path = r.oldPath)) ∨
      (∃ r ∈ rs, i.name = r.name ∧ i.path = r.newPath) := by
  induction rs generalizing g with
  | nil =>
    intro i hi
    simp only [applyReplacers] at h
    cases h
    exact Or.inl ⟨hi, fun r hr => absurd hr (List.not_mem_nil r)⟩
  | cons r rs ih =>
    intro i hi
    simp only [applyReplacers] at h
    by_cases hdel : (deleteNamedImport g r.name r.oldPath).2
    · simp only [hdel, Bool.not_true, Bool.false_eq_true, if_false] at h
      by_cases hadd : (addNamedImport (deleteNamedImport g r.name r.oldPath).1 r.name r.newPath).2
      · simp only [hadd, Bool.not_true, Bool.false_eq_true, if_false] at h
        rcases ih h i hi with ⟨hmem, hnone⟩ | ⟨r', hr', hre⟩
        · -- the import survived the remaining replacers; split on whether it
          -- is the freshly inserted one or came through the deletion filter
          unfold addNamedImport at hmem
          by_cases hex : (deleteNamedImport g r.name r.oldPath).1.imports.any
              (fun j => j.name == r.name && j.path == r.newPath)
          · -- insertion would have reported a conflict
            simp [addNamedImport, hex] at hadd
          · simp only [hex, Bool.false_eq_true, if_false, List.mem_append] at hmem
            rcases hmem with hmem | hmem
            · unfold deleteNamedImport at hmem
              have hmem' := List.mem_filter.mp hmem
              refine Or.inl ⟨hmem'.1, ?_⟩
              intro r' hr'
              rcases List.mem_cons.mp hr' with rfl | hr'
              · intro ⟨h1, h2⟩
                have := hmem'.2
                simp [h1, h2] at this
              · exact hnone r' hr'
            · rcases List.mem_singleton.mp hmem with rfl
              exact Or.inr ⟨r, List.mem_cons_self r rs, rfl, rfl⟩
        · exact Or.inr ⟨r', List.mem_cons_of_mem r hr', hre⟩
      · simp [hadd] at h
    · simp [hdel] at h

/-- updContent at the same path twice is the same as once. -/
theorem updContent_idem (p : String) (d : FileData) (e : FsEntry) :
    updContent p d (updContent p d e) = updContent p d e := by
  unfold updContent
  by_cases h : (e.path == p) = true
  · simp [h]
  · simp [h]

/-- The entry fsGet returns carries the looked-up path. -/
theorem fsGet_path_beq {fs : Fs} {p : String} {e : FsEntry}
    (h : fsGet fs p = some e) : (e.path == p) = true := by
  have := (List.find?_eq_some.mp h).1
  simpa using this

/-- updContent does not change the permission bits. -/
theorem updContent_perm (p : String) (d : FileData) (e : FsEntry) :
    (updContent p d e).perm = e.perm := by
  unfold updContent
  split <;> rfl

/-- A find? for path `q` over a list filtered by a predicate that rules
out `q` finds nothing. -/
theorem find?_filter_none {l : Fs} {q : String} {pred : FsEntry → Bool}
    (h : ∀ e, pred e = true → (e.path == q) = false) :
    (l.filter pred).find? (fun e => e.path == q) = none := by
  apply List.find?_eq_none.mpr
  intro e he
  have := (List.mem_filter.mp he).2
  simp [h e this]

/-- backupFile succeeds whenever its four OS steps succeed, appending one
fresh backup entry with the original bytes and permission bits. -/
theorem backupFile_ok (env : Env) (fs : Fs) (filename : String)
    (data : FileData) (perm : Nat)
    (ht : env.tempFails = false) (hc : env.chmodFails = false)
    (hw : env.backupWriteFails = false) (hcl : env.backupCloseFails = false)
    (hfresh : fsGet fs (env.tempName filename) = none) :
    backupFile env fs filename data perm =
      (fs ++ [⟨env.tempName filename, false, data, perm⟩], env.tempName filename, none) := by
  have hb := fsGet_none_forall hfresh
  have h1 : (fs ++ [(⟨env.tempName filename, false, FileData.incomplete, 384⟩ : FsEntry)]).map
        (updPerm (env.tempName filename) perm)
      = fs ++ [⟨env.tempName filename, false, FileData.incomplete, perm⟩] := by
    rw [List.map_append, map_updPerm_fresh hb]
    simp [updPerm]
  have h2 : (fs ++ [(⟨env.tempName filename, false, FileData.incomplete, perm⟩ : FsEntry)]).map
        (updContent (env.tempName filename) data)
      = fs ++ [⟨env.tempName filename, false, data, perm⟩] := by
    rw [List.map_append, map_updContent_fresh hb]
    simp [updContent]
  simp [backupFile, ht, hc, hw, hcl, chmodSupported, h1, h2]

/-- When writing the original bytes into the fresh backup file fails, the
backup file is left behind with incomplete content. -/
theorem backupFile_writeFail (env : Env) (fs : Fs) (filename : String)
    (data : FileData) (perm : Nat)
    (ht : env.tempFails = false) (hc : env.chmodFails = false)
    (hw : env.backupWriteFails = true)
    (hfresh : fsGet fs (env.tempName filename) = none) :
    backupFile env fs filename data perm =
      (fs ++ [⟨env.tempName filename, false, FileData.incomplete, perm⟩],
       env.tempName filename, some "write backup fails") := by
  have hb := fsGet_none_forall hfresh
  have h1 : (fs ++ [(⟨env.tempName filename, false, FileData.incomplete, 384⟩ : FsEntry)]).map
        (updPerm (env.tempName filename) perm)
      = fs ++ [⟨env.tempName filename, false, FileData.incomplete, perm⟩] := by
    rw [List.map_append, map_updPerm_fresh hb]
    simp [updPerm]
  simp [backupFile, ht, hc, hw, chmodSupported, h1]

/-- When closing the backup file fails, the backup file is left behind,
already holding the original bytes. -/
theorem backupFile_closeFail (env : Env) (fs : Fs) (filename : String)
    (data : FileData) (perm : Nat)
    (ht : env.tempFails = false) (hc : env.chmodFails = false)
    (hw : env.backupWriteFails = false) (hcl : env.backupCloseFails = true)
    (hfresh : fsGet fs (env.tempName filename) = none) :
    backupFile env fs filename data perm =
      (fs ++ [⟨env.tempName filename, false, data, perm⟩],
       env.tempName filename, some "close backup fails") := by
  have hb := fsGet_none_forall hfresh
  have h1 : (fs ++ [(⟨env.tempName filename, false, FileData.incomplete, 384⟩ : FsEntry)]).map
        (updPerm (env.tempName filename) perm)
      = fs ++ [⟨env.tempName filename, false, FileData.incomplete, perm⟩] := by
    rw [List.map_append, map_updPerm_fresh hb]
    simp [updPerm]
  have h2 : (fs ++ [(⟨env.tempName filename, false, FileData.incomplete, perm⟩ : FsEntry)]).map
        (updContent (env.tempName filename) data)
      = fs ++ [⟨env.tempName filename, false, data, perm⟩] := by
    rw [List.map_append, map_updContent_fresh hb]
    simp [updContent]
  simp [backupFile, ht, hc, hw, hcl, chmodSupported, h1, h2]

/-- When the chmod on the fresh backup file fails, backupFile removes it
again: this is the only failure branch that cleans up. -/
theorem backupFile_chmodFail (env : Env) (fs : Fs) (filename : String)
    (data : FileData) (perm : Nat)
    (ht : env.tempFails = false) (hc : env.chmodFails = true)
    (hfresh : fsGet fs (env.tempName filename) = none) :
    backupFile env fs filename data perm =
      (fs, env.tempName filename, some "chmod backup fails") := by
  have hb := fsGet_none_forall hfresh
  have h1 : fsRemove (fs ++ [(⟨env.tempName filename, false, FileData.incomplete, 384⟩ : FsEntry)])
      (env.tempName filename) = fs := by
    unfold fsRemove
    rw [List.filter_append, List.filter_eq_self.mpr (by
      intro e he
      simp [hb e he])]
    simp [List.filter]
  simp [backupFile, ht, hc, chmodSupported, h1]

/-- Up to the backup step, a per-file run whose open, stat, read, parse,
substitution and format stages all succeed reduces to the transactional
write tail. -/
theorem rewriteImportErr_reaches_write (env : Env) (rules : List (String × String))
    (fs : Fs) (path : String) (entry : FsEntry) (f f2 : GoFile)
    (ho : env.openFails = false) (hs : env.statFails = false) (hr : env.readFails = false)
    (hf : env.formatFails = false)
    (hget : fsGet fs path = some entry)
    (hp : parseGo entry.content = some f)
    (ha : applyReplacers f (computeReplacers rules f.imports) = Except.ok f2) :
    rewriteImportErr env rules fs path =
      (match backupFile env fs (path ++ ".") entry.content entry.perm with
       | (fs1, _, some e) => (fs1, some e)
       | (fs1, backname, none) =>
         if env.writeFileFails then (fsRename fs1 backname path, some "write file fails")
         else
           let fs2 := fsWrite fs1 path (render f2) entry.perm
           if env.removeFails then (fs2, some "remove backup fails")
           else (fsRemove fs2 backname, none)) := by
  simp only [rewriteImportErr, hget, ho, hs, hr, hf, Bool.false_eq_true, if_false]
  rw [hp]
  simp only [ha, hf, Bool.false_eq_true, if_false]

/-- C3 (amended): on a per-file run in which every OS step succeeds and
no import matches any rule, the file is nevertheless rewritten: its
content afterwards is the canonical rendering of its AST, so its bytes
are unchanged exactly when they already were canonical. -/
theorem c3_no_match_still_canonicalized (tn : String → String)
    (rules : List (String × String)) (fs : Fs) (path : String) (entry : FsEntry) (f : GoFile)
    (hget : fsGet fs path = some entry)
    (hp : parseGo entry.content = some f)
    (hnomatch : computeReplacers rules f.imports = [])
    (hfresh : fsGet fs (tn (path ++ ".")) = none) :
    (fsGet (rewriteImport (happyWith tn) rules fs path).fs path).map
        (fun e => e.content) = some (render f) ∧
    ((fsGet (rewriteImport (happyWith tn) rules fs path).fs path).map
        (fun e => e.content) = some entry.content ↔ entry.content = render f) := by
  have ha : applyReplacers f (computeReplacers rules f.imports) = Except.ok f := by
    rw [hnomatch]
    rfl
  have hw := rewriteImportErr_happy tn rules fs path entry f f hget hp ha hfresh
  have hpath : (entry.path == path) = true := fsGet_path_beq hget
  have hmain : (fsGet (rewriteImport (happyWith tn) rules fs path).fs path).map
      (fun e => e.content) = some (render f) := by
    simp only [rewriteImport, hw]
    rw [fsGet_map_pathPres (updContent path (render f)) (updContent_path path (render f)) fs path,
      hget]
    simp [updContent, hpath]
  refine ⟨hmain, ?_⟩
  rw [hmain]
  constructor
  · intro h
    exact (Option.some.injEq _ _ ▸ h).symm
  · intro h
    rw [h]

/-- C9: on a fully successful per-file rewrite, the permission bits of
the file afterwards equal the permission bits it had before the run. -/
theorem c9_perm_preserved (tn : String → String) (rules : List (String × String))
    (fs : Fs) (path : String) (entry : FsEntry) (f f2 : GoFile)
    (hget : fsGet fs path = some entry)
    (hp : parseGo entry.content = some f)
    (ha : applyReplacers f (computeReplacers rules f.imports) = Except.ok f2)
    (hfresh : fsGet fs (tn (path ++ ".")) = none) :
    (fsGet (rewriteImport (happyWith tn) rules fs path).fs path).map
        (fun e => e.perm) = some entry.perm ∧
    (rewriteImportErr (happyWith tn) rules fs path).2 = none := by
  have hw := rewriteImportErr_happy tn rules fs path entry f f2 hget hp ha hfresh
  constructor
  · simp only [rewriteImport, hw]
    rw [fsGet_map_pathPres (updContent path (render f2)) (updContent_path path (render f2)) fs path,
      hget]
    simp [updContent_perm]
  · rw [hw]

/-- C5: when the backup is created successfully and the overwrite of the
target fails, the rename of the backup back onto the target restores the
original content (and permission bits), and the backup file no longer
exists under its temporary name. -/
theorem c5_overwrite_failure_restores (tn : String → String)
    (rules : List (String × String)) (fs : Fs) (path : String) (entry : FsEntry) (f f2 : GoFile)
    (hget : fsGet fs path = some entry)
    (hp : parseGo entry.content = some f)
    (ha : applyReplacers f (computeReplacers rules f.imports) = Except.ok f2)
    (hfresh : fsGet fs (tn (path ++ ".")) = none) :
    (fsGet (rewriteImport (failWriteEnv tn) rules fs path).fs
        path).map (fun e => e.content) = some entry.content ∧
    (fsGet (rewriteImport (failWriteEnv tn) rules fs path).fs
        path).map (fun e => e.perm) = some entry.perm ∧
    fsGet (rewriteImport (failWriteEnv tn) rules fs path).fs
        (tn (path ++ ".")) = none ∧
    (rewriteImportErr (failWriteEnv tn) rules fs path).2 =
      some "write file fails" := by
  have hbp : tn (path ++ ".") ≠ path := by
    intro hEq
    rw [hEq, hget] at hfresh
    exact Option.noConfusion hfresh
  have hreach := rewriteImportErr_reaches_write (failWriteEnv tn)
    rules fs path entry f f2 rfl rfl rfl rfl hget hp ha
  have hback := backupFile_ok (failWriteEnv tn) fs (path ++ ".")
    entry.content entry.perm rfl rfl rfl rfl hfresh
  have hgetb : fsGet (fs ++ [(⟨tn (path ++ "."), false, entry.content, entry.perm⟩ : FsEntry)])
      (tn (path ++ ".")) = some ⟨tn (path ++ "."), false, entry.content, entry.perm⟩ := by
    rw [fsGet, find?_append_none hfresh]
    simp [List.find?]
  have hfinal : rewriteImportErr (failWriteEnv tn) rules fs path =
      (fs.filter (fun x => !(x.path == tn (path ++ ".")) && !(x.path == path)) ++
        [⟨path, false, entry.content, entry.perm⟩], some "write file fails") := by
    rw [hreach, hback]
    simp only [failWriteEnv, fsRename, hgetb, List.filter_append]
    simp [List.filter]
  have hfsp : fsGet (fs.filter (fun x => !(x.path == tn (path ++ ".")) && !(x.path == path)) ++
        [(⟨path, false, entry.content, entry.perm⟩ : FsEntry)]) path =
        some ⟨path, false, entry.content, entry.perm⟩ := by
    rw [fsGet, find?_append_none (find?_filter_none (by
      intro e he
      have h2 := ((Bool.and_eq_true _ _).mp he).2
      simpa using h2))]
    simp [List.find?]
  have hfsb : fsGet (fs.filter (fun x => !(x.path == tn (path ++ ".")) && !(x.path == path)) ++
        [(⟨path, false, entry.content, entry.perm⟩ : FsEntry)]) (tn (path ++ ".")) = none := by
    rw [fsGet, find?_append_none (find?_filter_none (by
      intro e he
      have h1 := ((Bool.and_eq_true _ _).mp he).1
      simpa using h1))]
    have hpb : (path == tn (path ++ ".")) = false := by
      simpa using Ne.symm hbp
    simp [List.find?, hpb]
  refine ⟨?_, ?_, ?_, ?_⟩
  · simp only [rewriteImport, hfinal, hfsp]
    rfl
  · simp only [rewriteImport, hfinal, hfsp]
    rfl
  · simp only [rewriteImport, hfinal, hfsb]
  · rw [hfinal]

/-- C10: when writing the original bytes into the backup file fails, or
when closing the backup file fails, the backup temp file is left on disk
next to the unchanged target; only the chmod-failure path removes it. -/
theorem c10_backup_failure_leaves_backup_behind (tn : String → String)
    (rules : List (String × String)) (fs : Fs) (path : String) (entry : FsEntry) (f f2 : GoFile)
    (hget : fsGet fs path = some entry)
    (hp : parseGo entry.content = some f)
    (ha : applyReplacers f (computeReplacers rules f.imports) = Except.ok f2)
    (hfresh : fsGet fs (tn (path ++ ".")) = none) :
    ((fsGet (rewriteImport (failBackupWriteEnv tn) rules fs path).fs (tn (path ++ "."))).map
        (fun e => e.content) = some FileData.incomplete ∧
      fsGet (rewriteImport (failBackupWriteEnv tn) rules fs path).fs path = some entry ∧
      (rewriteImportErr (failBackupWriteEnv tn) rules fs path).2 = some "write backup fails") ∧
    ((fsGet (rewriteImport (failBackupCloseEnv tn) rules fs path).fs (tn (path ++ "."))).map
        (fun e => e.content) = some entry.content ∧
      fsGet (rewriteImport (failBackupCloseEnv tn) rules fs path).fs path = some entry ∧
      (rewriteImportErr (failBackupCloseEnv tn) rules fs path).2 = some "close backup fails") ∧
    (fsGet (rewriteImport (failChmodEnv tn) rules fs path).fs (tn (path ++ ".")) = none ∧
      (rewriteImportErr (failChmodEnv tn) rules fs path).2 = some "chmod backup fails") := by
  have hreach1 := rewriteImportErr_reaches_write (failBackupWriteEnv tn)
    rules fs path entry f f2 rfl rfl rfl rfl hget hp ha
  have hb1 := backupFile_writeFail (failBackupWriteEnv tn) fs (path ++ ".")
    entry.content entry.perm rfl rfl rfl hfresh
  have hfinal1 : rewriteImportErr (failBackupWriteEnv tn) rules fs path =
      (fs ++ [⟨tn (path ++ "."), false, FileData.incomplete, entry.perm⟩],
       some "write backup fails") := by
    rw [hreach1, hb1]
    rfl
  have hreach2 := rewriteImportErr_reaches_write (failBackupCloseEnv tn)
    rules fs path entry f f2 rfl rfl rfl rfl hget hp ha
  have hb2 := backupFile_closeFail (failBackupCloseEnv tn) fs (path ++ ".")
    entry.content entry.perm rfl rfl rfl rfl hfresh
  have hfinal2 : rewriteImportErr (failBackupCloseEnv tn) rules fs path =
      (fs ++ [⟨tn (path ++ "."), false, entry.content, entry.perm⟩],
       some "close backup fails") := by
    rw [hreach2, hb2]
    rfl
  have hreach3 := rewriteImportErr_reaches_write (failChmodEnv tn)
    rules fs path entry f f2 rfl rfl rfl rfl hget hp ha
  have hb3 := backupFile_chmodFail (failChmodEnv tn) fs (path ++ ".")
    entry.content entry.perm rfl rfl hfresh
  have hfinal3 : rewriteImportErr (failChmodEnv tn) rules fs path =
      (fs, some "chmod backup fails") := by
    rw [hreach3, hb3]
  have hlook1 : fsGet (fs ++ [(⟨tn (path ++ "."), false, FileData.incomplete, entry.perm⟩ :
      FsEntry)]) (tn (path ++ ".")) =
      some ⟨tn (path ++ "."), false, FileData.incomplete, entry.perm⟩ := by
    rw [fsGet, find?_append_none hfresh]
    simp [List.find?]
  have hlook2 : fsGet (fs ++ [(⟨tn (path ++ "."), false, entry.content, entry.perm⟩ :
      FsEntry)]) (tn (path ++ ".")) =
      some ⟨tn (path ++ "."), false, entry.content, entry.perm⟩ := by
    rw [fsGet, find?_append_none hfresh]
    simp [List.find?]
  refine ⟨⟨?_, ?_, ?_⟩, ⟨?_, ?_, ?_⟩, ?_, ?_⟩
  · simp only [rewriteImport, hfinal1, hlook1]
    rfl
  · simp only [rewriteImport, hfinal1]
    exact find?_append_some hget
  · rw [hfinal1]
  · simp only [rewriteImport, hfinal2, hlook2]
    rfl
  · simp only [rewriteImport, hfinal2]
    exact find?_append_some hget
  · rw [hfinal2]
  · simp only [rewriteImport, hfinal3]
    exact hfresh
  · rw [hfinal3]

/-- C6: when the delete-then-insert loop fails for any pending
substitution (deletion not found, or insertion conflict), the per-file
run stops with that error before any filesystem write: the filesystem is
returned unchanged, one diagnostic is logged, and the walk sees no
error. -/
theorem c6_delete_insert_failure_aborts (env : Env) (rules : List (String × String))
    (fs : Fs) (path : String) (entry : FsEntry) (f : GoFile) (e : String)
    (ho : env.openFails = false) (hst : env.statFails = false) (hrd : env.readFails = false)
    (hget : fsGet fs path = some entry)
    (hp : parseGo entry.content = some f)
    (ha : applyReplacers f (computeReplacers rules f.imports) = Except.error e) :
    rewriteImport env rules fs path = { fs := fs, logs := [logLine path e], ret := none } := by
  simp only [rewriteImport, rewriteImportErr, hget, ho, hst, hrd, Bool.false_eq_true, if_false]
  rw [hp]
  simp [ha, rewriteLogs]

/-- C7 (amended): a second per-file run right after a successful first
one with the same single rule leaves the filesystem unchanged and
computes no substitutions, provided no path produced by the rule again
starts with the old prefix.  (Without that proviso idempotence fails;
see the counterexample.) -/
theorem c7_second_run_noop_when_no_rematch (tn : String → String) (o n : String)
    (fs : Fs) (path : String) (entry : FsEntry) (f f2 : GoFile)
    (hget : fsGet fs path = some entry)
    (hp : parseGo entry.content = some f)
    (ha : applyReplacers f (computeReplacers [(o, n)] f.imports) = Except.ok f2)
    (hnore : ∀ i ∈ f.imports, goHasPrefix i.path o = true →
      goHasPrefix (n ++ goDrop i.path o.length) o = false)
    (hfresh : fsGet fs (tn (path ++ ".")) = none) :
    computeReplacers [(o, n)] f2.imports = [] ∧
    (rewriteImport (happyWith tn) [(o, n)]
        (rewriteImport (happyWith tn) [(o, n)] fs path).fs path).fs =
      (rewriteImport (happyWith tn) [(o, n)] fs path).fs := by
  have hw1 := rewriteImportErr_happy tn [(o, n)] fs path entry f f2 hget hp ha hfresh
  have hno : ∀ i ∈ f2.imports, goHasPrefix i.path o = false := by
    intro i hi
    rcases applyReplacers_imports ha i hi with ⟨hmem, hnone⟩ | ⟨r, hr, hname, hpath2⟩
    · cases hcase : goHasPrefix i.path o with
      | false => rfl
      | true =>
        exact absurd ⟨rfl, rfl⟩ (hnone ⟨i.name, i.path, n ++ goDrop i.path o.length⟩
          (computeReplacers_single_mem_of hmem hcase))
    · rcases computeReplacers_single_mem hr with ⟨j, hj, hsj, rfl⟩
      rw [hpath2]
      simpa using hnore j hj hsj
  have hcr2 : computeReplacers [(o, n)] f2.imports = [] := computeReplacers_single_nil hno
  have hpath1 : (entry.path == path) = true := fsGet_path_beq hget
  have hget2 : fsGet (fs.map (updContent path (render f2))) path =
      some { entry with content := render f2 } := by
    rw [fsGet_map_pathPres (updContent path (render f2)) (updContent_path path (render f2))
      fs path, hget]
    simp [updContent, hpath1]
  have hfresh2 : fsGet (fs.map (updContent path (render f2))) (tn (path ++ ".")) = none := by
    rw [fsGet_map_pathPres (updContent path (render f2)) (updContent_path path (render f2))
      fs (tn (path ++ ".")), hfresh]
    rfl
  have ha2 : applyReplacers f2 (computeReplacers [(o, n)] f2.imports) = Except.ok f2 := by
    rw [hcr2]
    rfl
  have hp2 : parseGo ({ entry with content := render f2 } : FsEntry).content = some f2 := rfl
  have hw2 := rewriteImportErr_happy tn [(o, n)] (fs.map (updContent path (render f2))) path
    { entry with content := render f2 } f2 f2 hget2 hp2 ha2 hfresh2
  refine ⟨hcr2, ?_⟩
  simp only [rewriteImport, hw1, hw2]
  rw [List.map_map]
  exact List.map_congr_left (fun e _ => updContent_idem path (render f2) e)

/-- C2: main ignores the -s and -r values (beyond checking that they are
non-empty), because initReplaceRules is never invoked: the rule map keeps
its initial empty value, no import ever matches, and the substitution
loop is the identity on every file. -/
theorem c2_replace_rules_stay_empty :
    (∀ (env : Env) (d s r s' r' : String) (fs : Fs) (entries : List WalkEntry),
      s ≠ "" → r ≠ "" → s' ≠ "" → r' ≠ "" →
      main0 env d s r fs entries = main0 env d s' r' fs entries) ∧
    (∀ imps : List ImportSpec, computeReplacers replaceRulesInit imps = []) ∧
    (∀ f : GoFile, applyReplacers f (computeReplacers replaceRulesInit f.imports) =
      Except.ok f) := by
  refine ⟨?_, computeReplacers_nil_rules, ?_⟩
  · intro env d s r s' r' fs entries hs hr hs' hr'
    by_cases hd : d = ""
    · simp [main0, hd]
    · simp [main0, hd, hs, hr, hs', hr']
  · intro f
    rw [show computeReplacers replaceRulesInit f.imports = [] from
      computeReplacers_nil_rules f.imports]
    rfl

/-- C4 (amended): a path is selected for rewriting iff it is not a
directory, its path does not contain the substring "vendor" anywhere,
its name ends in ".go" and its name matches no denylisted suffix; and
handle invokes rewriteImport exactly on the selected paths. -/
theorem c4_candidate_characterization (env : Env) (rules : List (String × String))
    (fs : Fs) (path : String) (info : WalkInfo) :
    isCandidate path info = claimCandidateAmended path info ∧
    handle env rules fs path info none =
      (if isCandidate path info then
        ((rewriteImport env rules fs path).fs, (rewriteImport env rules fs path).logs,
         (rewriteImport env rules fs path).ret)
       else (fs, [], none)) := by
  refine ⟨rfl, ?_⟩
  unfold handle isCandidate
  by_cases h1 : info.isDir <;> by_cases h2 : containsStr path "vendor" <;>
    by_cases h3 : goHasSuffix info.name ".go" <;>
    by_cases h4 : codeSuffixSkipped.any (fun s => goHasSuffix info.name s) <;>
    simp [h1, h2, h3, h4]

/-- C8: rewriteImport returns nil to the walk on every path, so per-file
failures never stop the traversal; a failing per-file run logs exactly
its diagnostic line; a traversal error passed to the callback halts the
walk immediately; and the exit status is 255 exactly on a missing
startup argument or a traversal error, and 0 otherwise. -/
theorem c8_per_file_failures_nonfatal :
    (∀ (env : Env) (rules : List (String × String)) (fs : Fs) (path : String),
      (rewriteImport env rules fs path).ret = none) ∧
    (∀ (env : Env) (rules : List (String × String)) (fs : Fs) (path e : String),
      (rewriteImportErr env rules fs path).2 = some e →
      (rewriteImport env rules fs path).logs = [logLine path e]) ∧
    (∀ (env : Env) (rules : List (String × String)) (fs : Fs) (p : String) (i : WalkInfo)
      (err : String) (es : List WalkEntry),
      walk env rules fs ({ path := p, info := i, errx := some err } :: es) =
        { fs := fs, logs := [], err := some err }) ∧
    (∀ (env : Env) (d s r : String) (fs : Fs) (entries : List WalkEntry),
      ((main0 env d s r fs entries).exitCode = 0 ∨
        (main0 env d s r fs entries).exitCode = 255) ∧
      ((main0 env d s r fs entries).exitCode = 255 ↔
        d = "" ∨ s = "" ∨ r = "" ∨ (walk env replaceRulesInit fs entries).err ≠ none)) := by
  refine ⟨?_, ?_, ?_, ?_⟩
  · intro env rules fs path
    rfl
  · intro env rules fs path e h
    simp [rewriteImport, h, rewriteLogs]
  · intro env rules fs p i err es
    simp [walk, handle]
  · intro env d s r fs entries
    by_cases hd : d = ""
    · simp [main0, hd]
    · by_cases hs : s = ""
      · simp [main0, hd, hs]
      · by_cases hr : r = ""
        · simp [main0, hd, hs, hr]
        · cases hw : (walk env replaceRulesInit fs entries).err with
          | none => simp [main0, hd, hs, hr, hw]
          | some e2 => simp [main0, hd, hs, hr, hw]

/-- C1: on the claim's own scenario — rule (github.com/foo/bar,
example.com/baz), a file importing "github.com/foo/bar/sub" aliased x —
a real run of main leaves the file byte-for-byte unchanged, because
initReplaceRules is never invoked.  The rewrite engine itself, run with
the rule actually installed (the evident intent), produces exactly the
claimed result: the import becomes "example.com/baz/sub" aliased x. -/
theorem c1_main_never_rewrites_but_engine_would :
    (main0 envA "./" "github.com/foo/bar" "example.com/baz" fsA entriesA).fs = fsA ∧
    (fsGet (main0 envA "./" "github.com/foo/bar" "example.com/baz" fsA entriesA).fs
        "a.go").map (fun e => e.content) ≠ some (FileData.goSource fileA2 true) ∧
    (fsGet (rewriteImport envA (initReplaceRules "github.com/foo/bar" "example.com/baz")
        fsA "a.go").fs "a.go").map (fun e => e.content) =
      some (FileData.goSource fileA2 true) := by
  refine ⟨?_, ?_, ?_⟩
  · rfl
  · decide
  · rfl

/-- C3 counterexample: a candidate file whose single import matches no
rule is still rewritten — its non-canonical bytes are replaced by the
canonical rendering, so output bytes differ from input bytes. -/
theorem c3_counterexample :
    isCandidate "c.go" { name := "c.go", isDir := false } = true ∧
    computeReplacers rulesC3 fileC3.imports = [] ∧
    (rewriteImport envC3 rulesC3 fsC3 "c.go").fs ≠ fsC3 ∧
    (fsGet (rewriteImport envC3 rulesC3 fsC3 "c.go").fs "c.go").map (fun e => e.content) =
      some (FileData.goSource fileC3 true) := by
  refine ⟨?_, ?_, ?_, ?_⟩
  · decide
  · rfl
  · decide
  · rfl

/-- C4 counterexample: the path "vendors/a.go" has no "vendor" path
segment, so the claim selects it, but the source's substring test makes
handle skip it entirely. -/
theorem c4_counterexample :
    claimCandidate "vendors/a.go" { name := "a.go", isDir := false } = true ∧
    isCandidate "vendors/a.go" { name := "a.go", isDir := false } = false ∧
    handle envC4 [("github.com/foo", "q")] fsC4 "vendors/a.go"
      { name := "a.go", isDir := false } none = (fsC4, [], none) := by
  refine ⟨?_, ?_, ?_⟩
  · decide
  · decide
  · rfl

/-- C7 counterexample: with rule (a, ab) on a file importing "a/x", the
rewritten path "ab/x" still starts with "a", so a second run of the walk
rewrites again ("abb/x") and the end state differs from one run. -/
theorem c7_counterexample :
    (walk envC7 (initReplaceRules "a" "ab")
        (walk envC7 (initReplaceRules "a" "ab") fsC7 entriesC7).fs entriesC7).fs ≠
      (walk envC7 (initReplaceRules "a" "ab") fsC7 entriesC7).fs := by
  decide

/-- Witness for C2 at concrete inputs: two runs differing only in the
-s and -r values behave identically. -/
theorem c2_witness :
    main0 (happyWith (fun _ => "t.bak")) "./" "alpha" "beta" [] [] =
      main0 (happyWith (fun _ => "t.bak")) "./" "gamma" "delta" [] [] :=
  c2_replace_rules_stay_empty.1 (happyWith (fun _ => "t.bak")) "./" "alpha" "beta" "gamma"
    "delta" [] [] (by decide) (by decide) (by decide) (by decide)

/-- Witness for the amended C3 at concrete inputs. -/
theorem c3_witness :
    (fsGet (rewriteImport (happyWith (fun _ => "w3.bak")) [("zzz", "q")] fsW3 "w.go").fs
        "w.go").map (fun e => e.content) = some (render fileW3) ∧
    ((fsGet (rewriteImport (happyWith (fun _ => "w3.bak")) [("zzz", "q")] fsW3 "w.go").fs
        "w.go").map (fun e => e.content) = some (FileData.goSource fileW3 true) ↔
      FileData.goSource fileW3 true = render fileW3) :=
  c3_no_match_still_canonicalized (fun _ => "w3.bak") [("zzz", "q")] fsW3 "w.go"
    ⟨"w.go", false, FileData.goSource fileW3 true, 420⟩ fileW3 rfl rfl rfl rfl

/-- Witness for C5 at concrete inputs. -/
theorem c5_witness :
    (fsGet (rewriteImport (failWriteEnv (fun _ => "w5.bak")) [("a", "b")] fsW5 "w5.go").fs
        "w5.go").map (fun e => e.content) = some (FileData.goSource fileW5 true) ∧
    (fsGet (rewriteImport (failWriteEnv (fun _ => "w5.bak")) [("a", "b")] fsW5 "w5.go").fs
        "w5.go").map (fun e => e.perm) = some 420 ∧
    fsGet (rewriteImport (failWriteEnv (fun _ => "w5.bak")) [("a", "b")] fsW5 "w5.go").fs
        "w5.bak" = none ∧
    (rewriteImportErr (failWriteEnv (fun _ => "w5.bak")) [("a", "b")] fsW5 "w5.go").2 =
      some "write file fails" :=
  c5_overwrite_failure_restores (fun _ => "w5.bak") [("a", "b")] fsW5 "w5.go"
    ⟨"w5.go", false, FileData.goSource fileW5 true, 420⟩ fileW5 fileW5b rfl rfl rfl rfl

/-- Witness for C6 at concrete inputs: the rule (a, b) on a file that
imports "a" and "b" under the same alias makes the insertion conflict,
and the run aborts without touching the filesystem. -/
theorem c6_witness :
    rewriteImport (happyWith (fun _ => "w6.bak")) [("a", "b")] fsW6 "w6.go" =
      { fs := fsW6, logs := [logLine "w6.go" "add new path fails"], ret := none } :=
  c6_delete_insert_failure_aborts (happyWith (fun _ => "w6.bak")) [("a", "b")] fsW6 "w6.go"
    ⟨"w6.go", false, FileData.goSource fileW6 true, 420⟩ fileW6 "add new path fails"
    rfl rfl rfl rfl rfl rfl

/-- Witness for the amended C7 at concrete inputs. -/
theorem c7_witness :
    computeReplacers [("github.com/foo", "example.com/baz")] fileW7b.imports = [] ∧
    (rewriteImport (happyWith (fun _ => "w7.bak")) [("github.com/foo", "example.com/baz")]
        (rewriteImport (happyWith (fun _ => "w7.bak")) [("github.com/foo", "example.com/baz")]
          fsW7 "w7.go").fs "w7.go").fs =
      (rewriteImport (happyWith (fun _ => "w7.bak")) [("github.com/foo", "example.com/baz")]
        fsW7 "w7.go").fs :=
  c7_second_run_noop_when_no_rematch (fun _ => "w7.bak") "github.com/foo" "example.com/baz"
    fsW7 "w7.go" ⟨"w7.go", false, FileData.goSource fileW7 true, 420⟩ fileW7 fileW7b
    rfl rfl rfl (by decide) rfl

/-- Witness for C8 at concrete inputs: a failing per-file run (absent
file) returns nil to the walk and logs its diagnostic; a missing -d
value exits with status 255. -/
theorem c8_witness :
    (rewriteImport (happyWith (fun _ => "w8.bak")) [] [] "w8.go").ret = none ∧
    (rewriteImport (happyWith (fun _ => "w8.bak")) [] [] "w8.go").logs =
      [logLine "w8.go" "open file fails"] ∧
    (main0 (happyWith (fun _ => "w8.bak")) "" "a" "b" [] []).exitCode = 255 :=
  ⟨c8_per_file_failures_nonfatal.1 (happyWith (fun _ => "w8.bak")) [] [] "w8.go",
   c8_per_file_failures_nonfatal.2.1 (happyWith (fun _ => "w8.bak")) [] [] "w8.go"
     "open file fails" rfl,
   (c8_per_file_failures_nonfatal.2.2.2 (happyWith (fun _ => "w8.bak")) "" "a" "b" [] []).2.mpr
     (Or.inl rfl)⟩

/-- Witness for C9 at concrete inputs: permission bits 0640 survive the
rewrite. -/
theorem c9_witness :
    (fsGet (rewriteImport (happyWith (fun _ => "w9.bak")) [("a", "b")] fsW9 "w9.go").fs
        "w9.go").map (fun e => e.perm) = some 416 ∧
    (rewriteImportErr (happyWith (fun _ => "w9.bak")) [("a", "b")] fsW9 "w9.go").2 = none :=
  c9_perm_preserved (fun _ => "w9.bak") [("a", "b")] fsW9 "w9.go"
    ⟨"w9.go", false, FileData.goSource fileW5 true, 416⟩ fileW5 fileW5b rfl rfl rfl rfl

/-- Witness for C10 at concrete inputs. -/
theorem c10_witness :
    ((fsGet (rewriteImport (failBackupWriteEnv (fun _ => "wa.bak")) [("a", "b")] fsW10
        "wa.go").fs "wa.bak").map (fun e => e.content) = some FileData.incomplete ∧
      fsGet (rewriteImport (failBackupWriteEnv (fun _ => "wa.bak")) [("a", "b")] fsW10
        "wa.go").fs "wa.go" = some ⟨"wa.go", false, FileData.goSource fileW5 true, 420⟩ ∧
      (rewriteImportErr (failBackupWriteEnv (fun _ => "wa.bak")) [("a", "b")] fsW10
        "wa.go").2 = some "write backup fails") ∧
    ((fsGet (rewriteImport (failBackupCloseEnv (fun _ => "wa.bak")) [("a", "b")] fsW10
        "wa.go").fs "wa.bak").map (fun e => e.content) =
        some (FileData.goSource fileW5 true) ∧
      fsGet (rewriteImport (failBackupCloseEnv (fun _ => "wa.bak")) [("a", "b")] fsW10
        "wa.go").fs "wa.go" = some ⟨"wa.go", false, FileData.goSource fileW5 true, 420⟩ ∧
      (rewriteImportErr (failBackupCloseEnv (fun _ => "wa.bak")) [("a", "b")] fsW10
        "wa.go").2 = some "close backup fails") ∧
    (fsGet (rewriteImport (failChmodEnv (fun _ => "wa.bak")) [("a", "b")] fsW10
        "wa.go").fs "wa.bak" = none ∧
      (rewriteImportErr (failChmodEnv (fun _ => "wa.bak")) [("a", "b")] fsW10
        "wa.go").2 = some "chmod backup fails") :=
  c10_backup_failure_leaves_backup_behind (fun _ => "wa.bak") [("a", "b")] fsW10 "wa.go"
    ⟨"wa.go", false, FileData.goSource fileW5 true, 420⟩ fileW5 fileW5b rfl rfl rfl rfl

end Yolk
